import Mathlib

/-!
Shallow embedding of the AT45DB flash-translation layer
(`drivers/AT45DB/AT45DBFlash.{h,cpp}`).

The chip is modelled by its observable storage: a main array of pages of
raw bytes, plus the single on-chip SRAM buffer (buffer 0, the only one the
driver uses).  Each private helper of the C++ class becomes a function on
this state; the public operations are the same compositions of helpers as
in the source.  Machine integers are modelled as `Nat` with explicit
truncation where the C++ types truncate (`uint32_t` parameters, the
`uint16_t` results of the address translator, `uint8_t` data bytes), and
the driver field `_cur_page_in_buf : int32_t` (sentinel `-1`) as `Int`.

SPI commands that move data (buffer clear 0x84, main-memory-to-buffer
transfer 0x53, buffer write 0x84, buffer-to-main program 0x83) are also
recorded in an event trace so that command-count properties can be stated.
-/

namespace AT45DBFlash

/-- Geometry table `AT45_PageBitSizes` from AT45DBFlash.h. -/
def AT45_PageBitSizes : List Nat := [9, 9, 9, 9, 10, 10, 11]

/-- Geometry table `AT45_PagesTotal` from AT45DBFlash.h. -/
def AT45_PagesTotal : List Nat := [512, 1024, 2048, 4096, 4096, 8192, 8192]

/-- Geometry table `AT45_PageBytes` from AT45DBFlash.h. -/
def AT45_PageBytes : List Nat := [264, 264, 264, 264, 528, 528, 1056]

/-- `AT45_PageBytes[_density]`: page size in bytes of the active geometry. -/
def pageBytes (d : Nat) : Nat := AT45_PageBytes.getD d 0

/-- `AT45_PagesTotal[_density]`: page count of the active geometry. -/
def pagesTotal (d : Nat) : Nat := AT45_PagesTotal.getD d 0

/-- Truncation to `uint32_t`. -/
def U32 (n : Nat) : Nat := n % 4294967296

/-- Truncation to `uint16_t`. -/
def U16 (n : Nat) : Nat := n % 65536

/-- Bitwise complement of a `uint8_t` value (`~data` in the source): the
driver exchanges NOT-ed data bytes with the chip. -/
def compl8 (b : Nat) : Nat := 255 - b % 256

/-- `addressToByteInPage(addr) = addr % AT45_PageBytes[_density]`,
`uint32_t` argument, `uint16_t` result. -/
def addressToByteInPage (d addr : Nat) : Nat := U16 (U32 addr % pageBytes d)

/-- `addressToPage(addr) = addr / AT45_PageBytes[_density]`,
`uint32_t` argument, `uint16_t` result. -/
def addressToPage (d addr : Nat) : Nat := U16 (U32 addr / pageBytes d)

/-- Observable chip storage: raw bytes of the main array, indexed by
(page, offset-in-page), and the raw bytes of on-chip buffer 0.  Pages are
`Int` because the driver hands `int`-typed page arguments (including the
`int32_t` field `_cur_page_in_buf`) to the page-addressed commands. -/
structure Chip where
  main : Int → Nat → Nat
  buf : Nat → Nat

/-- `clearBuffer(0)`: writes the raw byte 0xff into buffer offsets
0..263 (the loop bound is the literal 264 for every density). -/
def clearBuffer (c : Chip) : Chip :=
  { c with buf := fun i => if i < 264 then 255 else c.buf i }

/-- `getPageToBuf(0, page)`: `clearBuffer` followed by the
main-memory-to-buffer transfer command (0x53), which copies the page's
raw contents into the buffer. -/
def getPageToBuf (d : Nat) (c : Chip) (page : Int) : Chip :=
  let c1 := clearBuffer c
  { c1 with buf := fun i => if i < pageBytes d then c.main page i else c1.buf i }

/-- `writeByteToBuffer(0, start_byte, data)`: stores `~data` at the given
buffer offset (the SPI transfer sends the NOT-ed byte). -/
def writeByteToBuffer (c : Chip) (off data : Nat) : Chip :=
  { c with buf := fun i => if i = off then compl8 data else c.buf i }

/-- `programBufToPage(0, page)`: buffer-to-main-memory program with
built-in erase (0x83); the page's raw contents become the buffer's. -/
def programBufToPage (c : Chip) (page : Int) : Chip :=
  { c with main := fun p o => if p = page then c.buf o else c.main p o }

/-- `eraseBlock(block)`: block erase (0x50) addressed at page
`block << 3`; the 8 pages `block*8 .. block*8+7` become the erased raw
pattern 0xff. -/
def eraseBlock (c : Chip) (block : Int) : Chip :=
  { c with main := fun p o => if block * 8 ≤ p ∧ p < block * 8 + 8 then 255 else c.main p o }

/-- Data-moving SPI commands, recorded for command-count properties:
buffer clear (0x84 fill), main-to-buffer fetch (0x53), single buffer byte
write (0x84), buffer-to-main program (0x83). -/
inductive Ev where
  | clearBuf : Ev
  | getPage : Int → Ev
  | bufWrite : Nat → Nat → Ev
  | progPage : Int → Ev
  deriving DecidableEq

/-- Driver + chip state: `_density`, `_cur_page_in_buf`, the chip
storage, and the trace of data-moving commands issued so far. -/
structure S where
  density : Nat
  curPage : Int
  chip : Chip
  tr : List Ev

/-- The constructor `AT45DBFlash(expected_chip)` sets
`_cur_page_in_buf = -1` and leaves `_density` uninitialized (it is
assigned only by a successful `initialize()`); `d` stands for whatever
value the field holds.  No readiness flag exists in the class. -/
def initState (d : Nat) (c : Chip) : S :=
  { density := d, curPage := -1, chip := c, tr := [] }

/-- `startContWrite(start_addr)`: record the page of the start address in
`_cur_page_in_buf` and fetch that page into buffer 0. -/
def startContWrite (s : S) (addr : Nat) : S :=
  let page : Int := (addressToPage s.density addr : Int)
  { s with curPage := page,
           chip := getPageToBuf s.density s.chip page,
           tr := s.tr ++ [Ev.clearBuf, Ev.getPage page] }

/-- `writeContByte(addr, byte)`: if the byte's page differs from
`_cur_page_in_buf`, program the staged page out and fetch the new page;
then write the (NOT-ed) byte into the buffer at the in-page offset. -/
def writeContByte (s : S) (addr byte : Nat) : S :=
  let actPage : Int := (addressToPage s.density addr : Int)
  let s1 : S :=
    if s.curPage ≠ actPage then
      { s with curPage := actPage,
               chip := getPageToBuf s.density (programBufToPage s.chip s.curPage) actPage,
               tr := s.tr ++ [Ev.progPage s.curPage, Ev.clearBuf, Ev.getPage actPage] }
    else s
  { s1 with chip := writeByteToBuffer s1.chip (addressToByteInPage s.density addr) byte,
            tr := s1.tr ++ [Ev.bufWrite (addressToByteInPage s.density addr) byte] }

/-- `stopContWrite()`: program buffer 0 into page `_cur_page_in_buf`.
(The source does not reset `_cur_page_in_buf`.) -/
def stopContWrite (s : S) : S :=
  { s with chip := programBufToPage s.chip s.curPage,
           tr := s.tr ++ [Ev.progPage s.curPage] }

/-- `writeByte(addr, byt) = startContWrite; writeContByte; stopContWrite`. -/
def writeByte (s : S) (addr byt : Nat) : S :=
  stopContWrite (writeContByte (startContWrite s addr) addr byt)

/-- The loop body of `writeBytes`: `writeContByte(addr+i, buf[i])` for
`i = 0 .. len-1`, expressed by walking the data list while incrementing
the address. -/
def contWriteList : S → Nat → List Nat → S
  | s, _, [] => s
  | s, addr, b :: rest => contWriteList (writeContByte s addr b) (addr + 1) rest

/-- `writeBytes(addr, buf, len)` with `len = data.length`:
`startContWrite`, the `writeContByte` loop, `stopContWrite`. -/
def writeBytes (s : S) (addr : Nat) (data : List Nat) : S :=
  stopContWrite (contWriteList (startContWrite s addr) addr data)

/-- `readByte(addr)`: continuous-array-read command at
(`addressToPage`, `addressToByteInPage`); the received raw byte is
returned directly — this path applies no `~`. -/
def readByte (s : S) (addr : Nat) : Nat :=
  s.chip.main (addressToPage s.density addr : Int) (addressToByteInPage s.density addr)

/-- Raw byte of the main array at a linear byte position: the
continuous-array read streams successive bytes of the array, crossing
page boundaries, so position `q` lives at page `q / pageBytes`, offset
`q % pageBytes`. -/
def linRaw (d : Nat) (c : Chip) (q : Nat) : Nat :=
  c.main ((q / pageBytes d : Nat) : Int) (q % pageBytes d)

/-- `readBytes(addr, buf, len)`: continuous array read starting at
(`addressToPage`, `addressToByteInPage`); each received raw byte is
complemented (`~SPI.transfer(0x00)`) before being stored. -/
def readBytes (s : S) (addr len : Nat) : List Nat :=
  let start := addressToPage s.density addr * pageBytes s.density
    + addressToByteInPage s.density addr
  (List.range len).map fun i => compl8 (linRaw s.density s.chip (start + i))

/-- The erase loop `for (int i = 0; i < num_pages; i += 8)
eraseBlock(page + i)`: iteration `k` (of `ceil(num_pages/8)` many)
erases with argument `page + 8*k`, in increasing order. -/
def eraseIter (c : Chip) (page : Int) : Nat → Chip
  | 0 => c
  | k + 1 => eraseBlock (eraseIter c page k) (page + 8 * k)

/-- `blockErase4K(addr)`: `page = addressToPage(addr)`,
`num_pages = 4096 / pageBytes + 1`, then the stepped erase loop. -/
def blockErase4K (s : S) (addr : Nat) : S :=
  let page : Int := (addressToPage s.density addr : Int)
  let numPages := 4096 / pageBytes s.density + 1
  { s with chip := eraseIter s.chip page ((numPages + 7) / 8) }

/-- `blockErase32K(addr)`: same loop with `num_pages = 32768 / pageBytes + 1`. -/
def blockErase32K (s : S) (addr : Nat) : S :=
  let page : Int := (addressToPage s.density addr : Int)
  let numPages := 32768 / pageBytes s.density + 1
  { s with chip := eraseIter s.chip page ((numPages + 7) / 8) }

/-- `blockErase64K(addr)`: the source computes
`num_pages = 655356 / pageBytes + 1` (sic — the literal is 655356, not
65536). -/
def blockErase64K (s : S) (addr : Nat) : S :=
  let page : Int := (addressToPage s.density addr : Int)
  let numPages := 655356 / pageBytes s.density + 1
  { s with chip := eraseIter s.chip page ((numPages + 7) / 8) }

/-- A concrete chip whose raw storage is all zero (every logical byte
reads as 0xff through the complementing read path); used for concrete
evaluations. -/
def chip0 : Chip := { main := fun _ _ => 0, buf := fun _ => 0 }

/-- Number of main-memory-to-buffer fetch commands (0x53) in a trace. -/
def countFetch (tr : List Ev) : Nat :=
  tr.countP fun e => match e with | Ev.getPage _ => true | _ => false

/-- Number of buffer-to-main program commands (0x83) in a trace. -/
def countProg (tr : List Ev) : Nat :=
  tr.countP fun e => match e with | Ev.progPage _ => true | _ => false

/-- The caller-visible content of the store during a write sequence: the
staged page is seen through buffer 0, every other page through the main
array.  `q` is a linear raw-byte position. -/
def view (s : S) (q : Nat) : Nat :=
  if ((q / pageBytes s.density : Nat) : Int) = s.curPage
  then s.chip.buf (q % pageBytes s.density)
  else linRaw s.density s.chip q


/-- The intended effect of writing list `data` at successive linear
addresses from `a` over a store `F`: each byte lands, complemented, at
its own position; later bytes overwrite earlier ones. -/
def overlay : (Nat → Nat) → Nat → List Nat → Nat → Nat
  | F, _, [], q => F q
  | F, a, b :: rest, q =>
      overlay (fun r => if r = a then compl8 b else F r) (a + 1) rest q

/-- Number of page-boundary crossings performed by the `writeContByte`
loop when the staged page starts as `c` and `n` bytes are written at the
consecutive addresses `a, a+1, ...`. -/
def crossCount (d : Nat) : Int → Nat → Nat → Nat
  | _, _, 0 => 0
  | c, a, n + 1 =>
      (if c = ((a / pageBytes d : Nat) : Int) then 0 else 1)
        + crossCount d ((a / pageBytes d : Nat) : Int) (a + 1) n

/-- The write sequence of the re-staging scenario: begin a continuous
write at byte 0 of page `P`, write `v0` there, write `w` to byte 0 of
page `P+1` (first boundary crossing), write `v1` to byte 1 of page `P`
(crossing back, which re-stages page `P`), then end the sequence. -/
def restageSeq (s : S) (P v0 w v1 : Nat) : S :=
  stopContWrite (writeContByte (writeContByte (writeContByte
    (startContWrite s (P * pageBytes s.density))
    (P * pageBytes s.density) v0)
    ((P + 1) * pageBytes s.density) w)
    (P * pageBytes s.density + 1) v1)

/-- The command trace the spec expects for the 300-byte scenario on a
264-byte-page chip: stage page 0, fill 264 bytes, commit, stage page 1,
fill the remaining 36 bytes, commit at the end. -/
def scenarioTrace : List Ev :=
  [Ev.clearBuf, Ev.getPage 0]
    ++ (List.range 264).map (fun i => Ev.bufWrite i 5)
    ++ [Ev.progPage 0, Ev.clearBuf, Ev.getPage 1]
    ++ (List.range 36).map (fun i => Ev.bufWrite i 5)
    ++ [Ev.progPage 1]

/-! ### Geometry facts -/

theorem pageBytes_pos {d : Nat} (hd : d ≤ 6) : 0 < pageBytes d := by
  interval_cases d <;> decide

theorem pageBytes_le {d : Nat} (hd : d ≤ 6) : pageBytes d ≤ 1056 := by
  interval_cases d <;> decide

theorem pagesTotal_le {d : Nat} (hd : d ≤ 6) : pagesTotal d ≤ 8192 := by
  interval_cases d <;> decide

/-- Within the device span the `uint32_t`/`uint16_t` truncations of the
address translator are inert: `addressToPage` is plain division. -/
theorem addressToPage_eq {d a : Nat} (hd : d ≤ 6)
    (ha : a < pagesTotal d * pageBytes d) :
    addressToPage d a = a / pageBytes d := by
  have h32 : a < 4294967296 := by
    have h1 : pagesTotal d * pageBytes d ≤ 8192 * 1056 :=
      Nat.mul_le_mul (pagesTotal_le hd) (pageBytes_le hd)
    omega
  have hdiv : a / pageBytes d < pagesTotal d :=
    (Nat.div_lt_iff_lt_mul (pageBytes_pos hd)).mpr ha
  have h16 : a / pageBytes d < 65536 := by
    have := pagesTotal_le hd; omega
  unfold addressToPage U32 U16
  rw [Nat.mod_eq_of_lt h32, Nat.mod_eq_of_lt h16]

/-- Within the device span `addressToByteInPage` is plain remainder. -/
theorem addressToByteInPage_eq {d a : Nat} (hd : d ≤ 6)
    (ha : a < pagesTotal d * pageBytes d) :
    addressToByteInPage d a = a % pageBytes d := by
  have h32 : a < 4294967296 := by
    have h1 : pagesTotal d * pageBytes d ≤ 8192 * 1056 :=
      Nat.mul_le_mul (pagesTotal_le hd) (pageBytes_le hd)
    omega
  have h16 : a % pageBytes d < 65536 := by
    have h2 : a % pageBytes d < pageBytes d := Nat.mod_lt _ (pageBytes_pos hd)
    have := pageBytes_le hd; omega
  unfold addressToByteInPage U32 U16
  rw [Nat.mod_eq_of_lt h32, Nat.mod_eq_of_lt h16]

/-- The complementing write path cancels against the complementing read
path on byte values. -/
theorem compl8_compl8 {b : Nat} (hb : b < 256) : compl8 (compl8 b) = b := by
  unfold compl8; omega

/-! ### State-preservation facts -/

theorem density_startContWrite (s : S) (addr : Nat) :
    (startContWrite s addr).density = s.density := rfl

theorem density_writeContByte (s : S) (a b : Nat) :
    (writeContByte s a b).density = s.density := by
  simp only [writeContByte]; split <;> rfl

theorem density_contWriteList :
    ∀ (data : List Nat) (a : Nat) (s : S),
      (contWriteList s a data).density = s.density := by
  intro data
  induction data with
  | nil => intro a s; rfl
  | cons b rest ih =>
      intro a s
      show (contWriteList (writeContByte s a b) (a + 1) rest).density = s.density
      rw [ih, density_writeContByte]

theorem density_stopContWrite (s : S) :
    (stopContWrite s).density = s.density := rfl

theorem curPage_startContWrite (s : S) (addr : Nat) :
    (startContWrite s addr).curPage = (addressToPage s.density addr : Int) := rfl

/-- After `writeContByte(a, b)` the staged page is the page of `a`,
whether or not a boundary was crossed. -/
theorem curPage_writeContByte (s : S) (a b : Nat) :
    (writeContByte s a b).curPage = (addressToPage s.density a : Int) := by
  simp only [writeContByte]
  split
  · rfl
  · next h => simpa using not_not.mp h

/-! ### How each write-session step transforms the caller-visible store -/

/-- `startContWrite` fetches the staged page from the main array first,
so the caller-visible store is unchanged by it. -/
theorem view_startContWrite (s : S) (addr : Nat) (hd : s.density ≤ 6) (q : Nat) :
    view (startContWrite s addr) q = linRaw s.density s.chip q := by
  have hq : q % pageBytes s.density < pageBytes s.density :=
    Nat.mod_lt _ (pageBytes_pos hd)
  simp only [view, startContWrite, getPageToBuf, clearBuffer, linRaw]
  split
  · next h => rw [h]
  · rfl

/-- `writeContByte(a, b)` updates the caller-visible store at the single
linear position `a` (to the complemented byte) and nowhere else — in
particular a boundary crossing commits the old page and re-fetches the
new page without disturbing any other byte. -/
theorem view_writeContByte (s : S) (a b : Nat) (hd : s.density ≤ 6)
    (ha : a < pagesTotal s.density * pageBytes s.density) (q : Nat) :
    view (writeContByte s a b) q = if q = a then compl8 b else view s q := by
  have hpb : 0 < pageBytes s.density := pageBytes_pos hd
  have hpage : addressToPage s.density a = a / pageBytes s.density :=
    addressToPage_eq hd ha
  have hoff : addressToByteInPage s.density a = a % pageBytes s.density :=
    addressToByteInPage_eq hd ha
  have hqmod : q % pageBytes s.density < pageBytes s.density := Nat.mod_lt _ hpb
  have hqa : q = a ↔
      (q / pageBytes s.density = a / pageBytes s.density ∧
        q % pageBytes s.density = a % pageBytes s.density) := by
    constructor
    · rintro rfl; exact ⟨rfl, rfl⟩
    · rintro ⟨h1, h2⟩
      have e1 := Nat.div_add_mod q (pageBytes s.density)
      have e2 := Nat.div_add_mod a (pageBytes s.density)
      rw [h1, h2] at e1
      omega
  simp only [writeContByte, hpage, hoff]
  by_cases hc : s.curPage = ((a / pageBytes s.density : Nat) : Int)
  · rw [if_neg (not_not_intro hc)]
    simp only [view, writeByteToBuffer, linRaw]
    by_cases hqp : ((q / pageBytes s.density : Nat) : Int) = s.curPage
    · rw [if_pos hqp]
      have hqpn : q / pageBytes s.density = a / pageBytes s.density :=
        Nat.cast_inj.mp (hqp.trans hc)
      by_cases hm : q % pageBytes s.density = a % pageBytes s.density
      · have hq : q = a := hqa.mpr ⟨hqpn, hm⟩
        rw [if_pos hm, if_pos hq]
      · have hq : q ≠ a := fun h => hm (hqa.mp h).2
        rw [if_neg hm, if_neg hq, if_pos hqp]
    · rw [if_neg hqp]
      have hq : q ≠ a := by
        rintro rfl; exact hqp (by rw [hc])
      rw [if_neg hq, if_neg hqp]
  · rw [if_pos hc]
    have hc' : ¬ ((a / pageBytes s.density : Nat) : Int) = s.curPage :=
      fun h => hc h.symm
    simp only [view, writeByteToBuffer, getPageToBuf, clearBuffer,
      programBufToPage, linRaw]
    by_cases hqp : ((q / pageBytes s.density : Nat) : Int) =
        ((a / pageBytes s.density : Nat) : Int)
    · rw [if_pos hqp]
      have hqpn : q / pageBytes s.density = a / pageBytes s.density :=
        Nat.cast_inj.mp hqp
      by_cases hm : q % pageBytes s.density = a % pageBytes s.density
      · have hq : q = a := hqa.mpr ⟨hqpn, hm⟩
        rw [if_pos hm, if_pos hq]
      · have hq : q ≠ a := fun h => hm (hqa.mp h).2
        rw [if_neg hm, if_pos hqmod, if_neg hc', if_neg hq,
          if_neg (show ¬ ((q / pageBytes s.density : Nat) : Int) = s.curPage from
            fun h => hc' (hqp.symm.trans h)), hqpn]
    · rw [if_neg hqp]
      have hq : q ≠ a := fun h => hqp (by rw [h])
      rw [if_neg hq]


/-- `stopContWrite` commits the staged page: afterwards the raw main
array agrees everywhere with the caller-visible store of the session. -/
theorem view_stopContWrite (s : S) (q : Nat) :
    linRaw s.density (stopContWrite s).chip q = view s q := rfl

theorem overlay_lt :
    ∀ (data : List Nat) (F : Nat → Nat) (a q : Nat), q < a →
      overlay F a data q = F q := by
  intro data
  induction data with
  | nil => intro F a q h; rfl
  | cons b rest ih =>
      intro F a q h
      show overlay _ (a + 1) rest q = F q
      rw [ih _ _ _ (by omega), if_neg (by omega)]

theorem overlay_get :
    ∀ (data : List Nat) (F : Nat → Nat) (a i : Nat) (h : i < data.length),
      overlay F a data (a + i) = compl8 (data.get ⟨i, h⟩) := by
  intro data
  induction data with
  | nil => intro F a i h; exact absurd h (by simp)
  | cons b rest ih =>
      intro F a i h
      match i with
      | 0 =>
          show overlay _ (a + 1) rest (a + 0) = compl8 b
          rw [overlay_lt rest _ _ _ (by omega), if_pos (Nat.add_zero a)]
      | i + 1 =>
          show overlay _ (a + 1) rest (a + (i + 1)) = compl8 (rest.get ⟨i, _⟩)
          have hi : a + (i + 1) = (a + 1) + i := by omega
          rw [hi, ih _ _ _ (by simpa using h)]

/-- The `writeContByte` loop of `writeBytes` turns the caller-visible
store into the overlay of the data bytes over the previous store. -/
theorem view_contWriteList :
    ∀ (data : List Nat) (a : Nat) (s : S), s.density ≤ 6 →
      a + data.length ≤ pagesTotal s.density * pageBytes s.density →
      ∀ q, view (contWriteList s a data) q = overlay (view s) a data q := by
  intro data
  induction data with
  | nil => intro a s hd hr q; rfl
  | cons b rest ih =>
      intro a s hd hr q
      simp only [List.length_cons] at hr
      have hd' : (writeContByte s a b).density ≤ 6 := by
        rw [density_writeContByte]; exact hd
      have hr' : (a + 1) + rest.length ≤
          pagesTotal (writeContByte s a b).density *
            pageBytes (writeContByte s a b).density := by
        rw [density_writeContByte]; omega
      show view (contWriteList (writeContByte s a b) (a + 1) rest) q = _
      rw [ih (a + 1) (writeContByte s a b) hd' hr']
      have hv : view (writeContByte s a b) =
          fun r => if r = a then compl8 b else view s r :=
        funext fun r => view_writeContByte s a b hd (by omega) r
      rw [hv]
      rfl

theorem density_writeBytes (s : S) (addr : Nat) (data : List Nat) :
    (writeBytes s addr data).density = s.density := by
  unfold writeBytes
  rw [density_stopContWrite, density_contWriteList, density_startContWrite]

/-- A single-byte `readBytes` returns the complemented raw byte at the
linear address (for in-device addresses). -/
theorem readBytes_one (s : S) (addr : Nat) (hd : s.density ≤ 6)
    (ha : addr < pagesTotal s.density * pageBytes s.density) :
    readBytes s addr 1 = [compl8 (linRaw s.density s.chip addr)] := by
  simp only [readBytes]
  rw [addressToPage_eq hd ha, addressToByteInPage_eq hd ha, Nat.div_add_mod']
  simp [List.range_succ]

/-! ### The boundary-crossing re-stage scenario (claim C1) -/

/-- After the re-staging scenario the raw main array holds exactly the
three written bytes (complemented) at their own positions and the old
contents everywhere else. -/
theorem view_restageSeq (s : S) (P v0 w v1 : Nat) (hd : s.density ≤ 6)
    (hP : P + 2 ≤ pagesTotal s.density) (q : Nat) :
    linRaw s.density (restageSeq s P v0 w v1).chip q =
      if q = P * pageBytes s.density + 1 then compl8 v1
      else if q = (P + 1) * pageBytes s.density then compl8 w
      else if q = P * pageBytes s.density then compl8 v0
      else linRaw s.density s.chip q := by
  have hpb : 0 < pageBytes s.density := pageBytes_pos hd
  have hdist : (P + 2) * pageBytes s.density
      = P * pageBytes s.density + pageBytes s.density + pageBytes s.density := by ring
  have hdist1 : (P + 1) * pageBytes s.density
      = P * pageBytes s.density + pageBytes s.density := by ring
  have hmul : (P + 2) * pageBytes s.density
      ≤ pagesTotal s.density * pageBytes s.density := Nat.mul_le_mul_right _ hP
  have hA : P * pageBytes s.density
      < pagesTotal s.density * pageBytes s.density := by omega
  have hA1 : (P + 1) * pageBytes s.density
      < pagesTotal s.density * pageBytes s.density := by omega
  have hC : P * pageBytes s.density + 1
      < pagesTotal s.density * pageBytes s.density := by omega
  have hd2 : (writeContByte (startContWrite s (P * pageBytes s.density))
      (P * pageBytes s.density) v0).density = s.density := by
    rw [density_writeContByte]; rfl
  have hd3 : (writeContByte (writeContByte (startContWrite s (P * pageBytes s.density))
      (P * pageBytes s.density) v0) ((P + 1) * pageBytes s.density) w).density
      = s.density := by
    rw [density_writeContByte, hd2]
  have hd4 : (writeContByte (writeContByte (writeContByte
      (startContWrite s (P * pageBytes s.density)) (P * pageBytes s.density) v0)
      ((P + 1) * pageBytes s.density) w) (P * pageBytes s.density + 1) v1).density
      = s.density := by
    rw [density_writeContByte, hd3]
  have e0 := view_stopContWrite (writeContByte (writeContByte (writeContByte
    (startContWrite s (P * pageBytes s.density)) (P * pageBytes s.density) v0)
    ((P + 1) * pageBytes s.density) w) (P * pageBytes s.density + 1) v1) q
  rw [hd4] at e0
  show linRaw s.density (stopContWrite _).chip q = _
  rw [e0]
  rw [view_writeContByte _ _ _ (by rw [hd3]; exact hd) (by rw [hd3]; exact hC) q]
  rw [view_writeContByte _ _ _ (by rw [hd2]; exact hd) (by rw [hd2]; exact hA1) q]
  rw [view_writeContByte (startContWrite s (P * pageBytes s.density))
    (P * pageBytes s.density) v0 hd hA q]
  rw [view_startContWrite s (P * pageBytes s.density) hd q]

/-- Claim C1: crossing a page boundary away from page `P` mid-write and
later writing to `P` again re-fetches `P`'s contents before accepting new
byte writes, so the byte written to offset 0 of `P` before the crossing
still reads back, and every byte of `P` the sequence never touched
(offsets other than 0 and 1) reads its original value. -/
theorem restage_preserves_untouched (s : S) (P v0 w v1 : Nat)
    (hd : s.density ≤ 6) (hP : P + 2 ≤ pagesTotal s.density) (hv0 : v0 < 256) :
    readBytes (restageSeq s P v0 w v1) (P * pageBytes s.density) 1 = [v0]
    ∧ ∀ k, 2 ≤ k → k < pageBytes s.density →
        readBytes (restageSeq s P v0 w v1) (P * pageBytes s.density + k) 1
          = readBytes s (P * pageBytes s.density + k) 1 := by
  have hpb : 0 < pageBytes s.density := pageBytes_pos hd
  have hdist1 : (P + 1) * pageBytes s.density
      = P * pageBytes s.density + pageBytes s.density := by ring
  have hmul : (P + 2) * pageBytes s.density
      ≤ pagesTotal s.density * pageBytes s.density := Nat.mul_le_mul_right _ hP
  have hdist2 : (P + 2) * pageBytes s.density
      = P * pageBytes s.density + pageBytes s.density + pageBytes s.density := by ring
  have hA : P * pageBytes s.density
      < pagesTotal s.density * pageBytes s.density := by omega
  have hdens : (restageSeq s P v0 w v1).density = s.density := by
    unfold restageSeq
    rw [density_stopContWrite, density_writeContByte, density_writeContByte,
      density_writeContByte, density_startContWrite]
  constructor
  · rw [readBytes_one (restageSeq s P v0 w v1) _ (by rw [hdens]; exact hd)
      (by rw [hdens]; exact hA), hdens,
      view_restageSeq s P v0 w v1 hd hP _,
      if_neg (by omega), if_neg (by omega), if_pos rfl, compl8_compl8 hv0]
  · intro k hk2 hklt
    have hq : P * pageBytes s.density + k
        < pagesTotal s.density * pageBytes s.density := by omega
    rw [readBytes_one (restageSeq s P v0 w v1) _ (by rw [hdens]; exact hd)
      (by rw [hdens]; exact hq), readBytes_one s _ hd hq, hdens,
      view_restageSeq s P v0 w v1 hd hP _,
      if_neg (by omega), if_neg (by omega), if_neg (by omega)]

/-- Witness for C1: concrete instance on density 0 (264-byte pages),
page 0, writing 7 / 3 / 9; byte 0 of page 0 reads back 7 and untouched
byte 5 reads its original value. -/
theorem restage_preserves_untouched_witness :
    readBytes (restageSeq (initState 0 chip0) 0 7 3 9) 0 1 = [7]
    ∧ readBytes (restageSeq (initState 0 chip0) 0 7 3 9) 5 1
        = readBytes (initState 0 chip0) 5 1 :=
  ⟨(restage_preserves_untouched (initState 0 chip0) 0 7 3 9
      (by decide) (by decide) (by decide)).1,
   (restage_preserves_untouched (initState 0 chip0) 0 7 3 9
      (by decide) (by decide) (by decide)).2 5 (by decide) (by decide)⟩

/-- Claim C2: for every address and byte list whose span stays within the
device (and whose length fits the `uint16_t` length parameter),
`writeBytes(addr, data, len)` followed immediately by
`readBytes(addr, len)` returns exactly `data`: the write-side and
read-side bitwise complements cancel, and the staged-page write session
puts every byte at its own linear position. -/
theorem writeBytes_readBytes_roundtrip (s : S) (addr : Nat) (data : List Nat)
    (hd : s.density ≤ 6)
    (_hlen : data.length < 65536)
    (hrange : addr + data.length ≤ pagesTotal s.density * pageBytes s.density)
    (hdata : ∀ b ∈ data, b < 256) :
    readBytes (writeBytes s addr data) addr data.length = data := by
  apply List.ext_getElem
  · simp [readBytes]
  · intro i h1 h2
    have hi : i < data.length := h2
    have haddr : addr < pagesTotal s.density * pageBytes s.density := by omega
    simp only [readBytes, density_writeBytes, List.getElem_map, List.getElem_range]
    rw [addressToPage_eq hd haddr, addressToByteInPage_eq hd haddr, Nat.div_add_mod']
    have hstop : linRaw s.density (writeBytes s addr data).chip (addr + i)
        = view (contWriteList (startContWrite s addr) addr data) (addr + i) := by
      have h := view_stopContWrite
        (contWriteList (startContWrite s addr) addr data) (addr + i)
      rw [density_contWriteList, density_startContWrite] at h
      exact h
    rw [hstop, view_contWriteList data addr (startContWrite s addr) hd hrange,
      show view (startContWrite s addr) = linRaw s.density s.chip from
        funext (view_startContWrite s addr hd),
      overlay_get data _ addr i hi,
      compl8_compl8 (hdata _ (data.get_mem i hi))]
    simp [List.get_eq_getElem]

/-- Witness for C2: writing `[1, 2]` at address 100 on density 0 and
reading 2 bytes back returns `[1, 2]`. -/
theorem writeBytes_readBytes_roundtrip_witness :
    readBytes (writeBytes (initState 0 chip0) 100 [1, 2]) 100 2 = [1, 2] :=
  writeBytes_readBytes_roundtrip (initState 0 chip0) 100 [1, 2]
    (by decide) (by decide) (by decide) (by decide)

/-! ### Command counting (claim C6) -/

theorem countFetch_startContWrite (s : S) (addr : Nat) :
    countFetch (startContWrite s addr).tr = countFetch s.tr + 1 := by
  simp [startContWrite, countFetch, List.countP_append, List.countP_cons]

theorem countProg_startContWrite (s : S) (addr : Nat) :
    countProg (startContWrite s addr).tr = countProg s.tr := by
  simp [startContWrite, countProg, List.countP_append, List.countP_cons]

theorem countFetch_stopContWrite (s : S) :
    countFetch (stopContWrite s).tr = countFetch s.tr := by
  simp [stopContWrite, countFetch, List.countP_append, List.countP_cons]

theorem countProg_stopContWrite (s : S) :
    countProg (stopContWrite s).tr = countProg s.tr + 1 := by
  simp [stopContWrite, countProg, List.countP_append, List.countP_cons]

theorem countFetch_writeContByte (s : S) (a b : Nat) :
    countFetch (writeContByte s a b).tr
      = countFetch s.tr
        + (if s.curPage = (addressToPage s.density a : Int) then 0 else 1) := by
  simp only [writeContByte]
  by_cases hc : s.curPage = (addressToPage s.density a : Int)
  · rw [if_neg (not_not_intro hc), if_pos hc]
    simp [countFetch, List.countP_append, List.countP_cons]
  · rw [if_pos hc, if_neg hc]
    simp [countFetch, List.countP_append, List.countP_cons]

theorem countProg_writeContByte (s : S) (a b : Nat) :
    countProg (writeContByte s a b).tr
      = countProg s.tr
        + (if s.curPage = (addressToPage s.density a : Int) then 0 else 1) := by
  simp only [writeContByte]
  by_cases hc : s.curPage = (addressToPage s.density a : Int)
  · rw [if_neg (not_not_intro hc), if_pos hc]
    simp [countProg, List.countP_append, List.countP_cons]
  · rw [if_pos hc, if_neg hc]
    simp [countProg, List.countP_append, List.countP_cons]

theorem counts_contWriteList :
    ∀ (data : List Nat) (a : Nat) (s : S), s.density ≤ 6 →
      a + data.length ≤ pagesTotal s.density * pageBytes s.density →
      countFetch (contWriteList s a data).tr
          = countFetch s.tr + crossCount s.density s.curPage a data.length
        ∧ countProg (contWriteList s a data).tr
          = countProg s.tr + crossCount s.density s.curPage a data.length := by
  intro data
  induction data with
  | nil =>
      intro a s hd hr
      constructor <;> simp [contWriteList, crossCount]
  | cons b rest ih =>
      intro a s hd hr
      simp only [List.length_cons] at hr
      have ha : a < pagesTotal s.density * pageBytes s.density := by omega
      have hd' : (writeContByte s a b).density ≤ 6 := by
        rw [density_writeContByte]; exact hd
      have hr' : (a + 1) + rest.length ≤
          pagesTotal (writeContByte s a b).density *
            pageBytes (writeContByte s a b).density := by
        rw [density_writeContByte]; omega
      have hcur : (writeContByte s a b).curPage
          = ((a / pageBytes s.density : Nat) : Int) := by
        rw [curPage_writeContByte, addressToPage_eq hd ha]
      obtain ⟨ihF, ihP⟩ := ih (a + 1) (writeContByte s a b) hd' hr'
      rw [density_writeContByte, hcur] at ihF ihP
      constructor
      · show countFetch (contWriteList (writeContByte s a b) (a + 1) rest).tr = _
        rw [ihF, countFetch_writeContByte, addressToPage_eq hd ha]
        simp only [List.length_cons, crossCount]
        omega
      · show countProg (contWriteList (writeContByte s a b) (a + 1) rest).tr = _
        rw [ihP, countProg_writeContByte, addressToPage_eq hd ha]
        simp only [List.length_cons, crossCount]
        omega

theorem crossCount_from (d : Nat) (hd : d ≤ 6) :
    ∀ (n a : Nat), crossCount d ((a / pageBytes d : Nat) : Int) (a + 1) n
      = (a + n) / pageBytes d - a / pageBytes d := by
  have hpb : 0 < pageBytes d := pageBytes_pos hd
  intro n
  induction n with
  | zero => intro a; simp [crossCount]
  | succ n ih =>
      intro a
      simp only [crossCount]
      rw [ih (a + 1), show a + 1 + n = a + (n + 1) from by omega]
      have h1 : a / pageBytes d ≤ (a + 1) / pageBytes d :=
        Nat.div_le_div_right (by omega)
      have h2 : (a + 1) / pageBytes d ≤ a / pageBytes d + 1 := by
        have hx := Nat.add_div_right a hpb
        have hmono : (a + 1) / pageBytes d ≤ (a + pageBytes d) / pageBytes d :=
          Nat.div_le_div_right (by omega)
        omega
      have h3 : (a + 1) / pageBytes d ≤ (a + (n + 1)) / pageBytes d :=
        Nat.div_le_div_right (by omega)
      by_cases hc : ((a / pageBytes d : Nat) : Int)
          = (((a + 1) / pageBytes d : Nat) : Int)
      · have hn : a / pageBytes d = (a + 1) / pageBytes d := Nat.cast_inj.mp hc
        rw [if_pos hc]
        omega
      · have hn : ¬ a / pageBytes d = (a + 1) / pageBytes d :=
          fun h => hc (by rw [h])
        rw [if_neg hc]
        omega

set_option maxRecDepth 10000 in
/-- Claim C6: a `writeBytes` call of `N ≥ 1` bytes spanning `K` distinct
pages issues exactly `K` page-fetch-to-buffer commands and exactly `K`
buffer-program commands (`K = pageOf(addr+N-1) - pageOf(addr) + 1`),
independent of `N`; and the concrete 300-byte write at address 0 on the
264-byte-page chip (density code 2, `AT45DB041`) produces exactly the
trace: stage page 0, fill 264 bytes, commit page 0, stage page 1, fill
the remaining 36 bytes, commit page 1. -/
theorem writeBytes_command_counts (s : S) (addr : Nat) (data : List Nat)
    (hd : s.density ≤ 6) (hne : data ≠ [])
    (_hlen : data.length < 65536)
    (hrange : addr + data.length ≤ pagesTotal s.density * pageBytes s.density) :
    (countFetch (writeBytes s addr data).tr
        = countFetch s.tr
          + ((addr + data.length - 1) / pageBytes s.density
              - addr / pageBytes s.density + 1)
      ∧ countProg (writeBytes s addr data).tr
        = countProg s.tr
          + ((addr + data.length - 1) / pageBytes s.density
              - addr / pageBytes s.density + 1))
    ∧ (writeBytes (initState 2 chip0) 0 (List.replicate 300 5)).tr
        = scenarioTrace := by
  refine ⟨?_, by decide⟩
  obtain ⟨b, rest, rfl⟩ := List.exists_cons_of_ne_nil hne
  have hlc : (b :: rest).length = rest.length + 1 := List.length_cons b rest
  have ha : addr < pagesTotal s.density * pageBytes s.density := by omega
  obtain ⟨hF, hP⟩ :=
    counts_contWriteList (b :: rest) addr (startContWrite s addr) hd hrange
  rw [density_startContWrite, curPage_startContWrite, countFetch_startContWrite,
    addressToPage_eq hd ha, hlc] at hF
  rw [density_startContWrite, curPage_startContWrite, countProg_startContWrite,
    addressToPage_eq hd ha, hlc] at hP
  simp only [crossCount, eq_self_iff_true, if_true, ite_true] at hF hP
  rw [crossCount_from s.density hd rest.length addr] at hF hP
  have hnum : addr + (b :: rest).length - 1 = addr + rest.length := by
    rw [hlc]; omega
  constructor
  · show countFetch (stopContWrite
      (contWriteList (startContWrite s addr) addr (b :: rest))).tr = _
    rw [countFetch_stopContWrite, hF, hnum]
    omega
  · show countProg (stopContWrite
      (contWriteList (startContWrite s addr) addr (b :: rest))).tr = _
    rw [countProg_stopContWrite, hP, hnum]
    omega

theorem writeBytes_command_counts_witness :
    countFetch (writeBytes (initState 0 chip0) 262 [1, 2, 3, 4]).tr = 2
    ∧ countProg (writeBytes (initState 0 chip0) 262 [1, 2, 3, 4]).tr = 2 := by
  have h := (writeBytes_command_counts (initState 0 chip0) 262 [1, 2, 3, 4]
    (by decide) (by decide) (by decide) (by decide)).1
  exact ⟨by rw [h.1]; decide, by rw [h.2]; decide⟩

/-! ### The remaining claims -/

/-- Claim C3 is a code bug in `readByte`: the write path stores the
complement of each data byte and `readBytes` complements again on read,
but `readByte` returns the received raw byte without the `~`.  Writing 0
at address 0 with `writeByte` and reading it back with `readByte` returns
255, not 0 — while `readBytes` of the same single byte returns 0, so the
two read paths of the same driver disagree. -/
theorem readByte_writeByte_mismatch :
    readByte (writeByte (initState 0 chip0) 0 0) 0 = 255
    ∧ readBytes (writeByte (initState 0 chip0) 0 0) 0 1 = [0] := by decide

/-- Claim C4 is a code bug: `blockErase4K(0)` on a 264-byte-page chip
(density code 2, `AT45DB041`) erases blocks 0 and 8 — pages 0..7 and
64..71 — not blocks 0 and 1 (pages 0..15): the loop passes the page
numbers `page + 0` and `page + 8` to `eraseBlock`, which expects block
indices and multiplies by 8 again.  Pages 8..15 keep their raw contents
(0) while pages 64..71 are erased to the raw 0xff pattern. -/
theorem blockErase4K_wrong_blocks :
    (blockErase4K (initState 2 chip0) 0).chip.main 0 0 = 255
    ∧ (blockErase4K (initState 2 chip0) 0).chip.main 7 263 = 255
    ∧ (blockErase4K (initState 2 chip0) 0).chip.main 8 0 = 0
    ∧ (blockErase4K (initState 2 chip0) 0).chip.main 15 263 = 0
    ∧ (blockErase4K (initState 2 chip0) 0).chip.main 64 0 = 255
    ∧ (blockErase4K (initState 2 chip0) 0).chip.main 71 263 = 255
    ∧ (blockErase4K (initState 2 chip0) 0).chip.main 72 0 = 0 := by decide

/-- Claim C5 is a code bug: the erased bytes do not cover the requested
span.  For `blockErase4K(0)` on density 2 the requested span is bytes
0..4095, but linear byte 2112 (page 8, offset 0) lies inside that span
and keeps its raw contents (0, not the erased 0xff pattern), because the
second `eraseBlock` call erases block 8 (pages 64..71) instead of block 1
(pages 8..15). -/
theorem blockErase4K_span_not_covered :
    2112 < 4096
    ∧ linRaw 2 (blockErase4K (initState 2 chip0) 0).chip 2112 = 0 := by decide

/-- Counterexample to claim C7 as stated: an operation invoked on a
freshly constructed, never-identified driver is not rejected — it
proceeds to issue device commands (its command trace is nonempty). -/
theorem writeByte_before_identify_cx :
    (writeByte (initState 0 chip0) 0 7).tr ≠ [] := by decide

/-- Claim C7 (amended): the driver keeps no readiness state and no
operation checks for successful identification; `writeByte` issues its
device commands (buffer clear + page fetch, buffer byte write, page
program) from every driver state whatsoever, including a freshly
constructed one on which `initialize()` never succeeded. -/
theorem writeByte_issues_commands_unconditionally (s : S) (addr v : Nat) :
    (writeByte s addr v).tr
      = s.tr ++ [Ev.clearBuf, Ev.getPage (addressToPage s.density addr : Int),
          Ev.bufWrite (addressToByteInPage s.density addr) v,
          Ev.progPage (addressToPage s.density addr : Int)] := by
  simp only [writeByte, stopContWrite, writeContByte, startContWrite]
  rw [if_neg (not_not_intro rfl)]
  simp

/-- Counterexample to claim C8 as stated: after `startContWrite(0)` on a
fresh density-0 driver, `stopContWrite` leaves `_cur_page_in_buf = 0`;
the session state still records a staged page instead of the no-page
sentinel value -1. -/
theorem stopContWrite_curPage_not_cleared_cx :
    (stopContWrite (startContWrite (initState 0 chip0) 0)).curPage = 0
    ∧ (0 : Int) ≠ -1 := by decide

/-- Claim C8 (amended): ending a write sequence always programs the
staged page's buffer into the main array (and emits the program command),
but does not clear the staged-page field: `_cur_page_in_buf` keeps its
value, since the source never resets it to -1. -/
theorem stopContWrite_programs_keeps_curPage (s : S) :
    (∀ o : Nat, (stopContWrite s).chip.main s.curPage o = s.chip.buf o)
    ∧ (stopContWrite s).curPage = s.curPage
    ∧ (stopContWrite s).tr = s.tr ++ [Ev.progPage s.curPage] := by
  refine ⟨fun o => ?_, rfl, rfl⟩
  simp [stopContWrite, programBufToPage]

/-- Counterexample to claim C9 as stated: the spec's round-trip equation
`pageOf(offsetOf(addr) + pageOf(addr)*pageBytes) == addr` fails at
`addr = 264` on density 0 (264-byte pages): the left side evaluates to
page number 1, not 264. -/
theorem translator_roundtrip_cx :
    addressToPage 0 (addressToByteInPage 0 264 + addressToPage 0 264 * pageBytes 0)
      ≠ 264 := by decide

/-- Claim C9 (amended): without the spurious outer `pageOf`, the
translator round-trip holds: `offsetOf(addr) + pageOf(addr) * pageBytes
= addr` for every supported density and every address within the device
span (the `uint16_t` return type of `addressToPage` truncates larger
quotients, so the identity is stated on the span the spec makes callers
responsible for staying inside). -/
theorem translator_roundtrip_amended (d addr : Nat) (hd : d ≤ 6)
    (ha : addr < pagesTotal d * pageBytes d) :
    addressToByteInPage d addr + addressToPage d addr * pageBytes d = addr := by
  rw [addressToPage_eq hd ha, addressToByteInPage_eq hd ha, Nat.mod_add_div']

/-- Witness for the amended C9 at density 0, address 1000. -/
theorem translator_roundtrip_amended_witness :
    addressToByteInPage 0 1000 + addressToPage 0 1000 * pageBytes 0 = 1000 :=
  translator_roundtrip_amended 0 1000 (by decide) (by decide)

/-- Claim C10: `writeByte(addr, v)` performs exactly the same steps as
`writeBytes(addr, buf, 1)` with `buf = [v]`: the resulting driver state,
chip contents and command trace are identical. -/
theorem writeByte_eq_writeBytes_singleton (s : S) (addr v : Nat) :
    writeByte s addr v = writeBytes s addr [v] := rfl

end AT45DBFlash
